import Mathlib

/-!
Verification of the ldesign-mindmap core against its specification.

The development shallowly embeds the three core subsystems of the source:
* the `Viewport` camera (src/renderer/Viewport.ts) over exact rational
  arithmetic,
* the `CommandHistory` undo/redo engine (command module) generically over an
  abstract command type and target state,
* the `MindNode` document tree, both as a pointer store (parent back-references
  and children lists, for the structural mutators `addChild`, `removeChild`,
  `moveTo`) and as an inductive tree (for the constructor, `toJSON`,
  `fromJSON`, `clone` and the tag operations).

Numbers are modelled as rationals, JavaScript truthiness of numbers and
strings is modelled explicitly (`0`, `""` and `undefined` are falsy), and the
nondeterministic `generateId` helper is modelled as an explicit supply
`gen : Nat -> String` of generated identifiers indexed by call count.
-/

namespace Mindmap

/-! ### Helpers from src/utils/helpers.ts -/

/-- `clamp(value, min, max)` from helpers.ts: `Math.min(Math.max(value, min), max)`. -/
def clamp (value lo hi : ℚ) : ℚ := min (max value lo) hi

/-- JavaScript `v || d` for an optional number: `undefined` and `0` are falsy. -/
def jsOr (v : Option ℚ) (d : ℚ) : ℚ :=
  match v with
  | none => d
  | some x => if x = 0 then d else x

theorem clamp_le (v : ℚ) : clamp v lo hi ≤ hi := min_le_right _ _

theorem le_clamp (h : lo ≤ hi) (v : ℚ) : lo ≤ clamp v lo hi :=
  le_min (le_max_right _ _) h

/-! ### Viewport (src/renderer/Viewport.ts) -/

/-- The `ViewportTransform` interface: translation plus uniform scale. -/
structure VTransform where
  x : ℚ
  y : ℚ
  scale : ℚ
deriving DecidableEq

/-- The options record accepted by the `Viewport` constructor. -/
structure ViewportOptions where
  minScale : Option ℚ := none
  maxScale : Option ℚ := none
  zoomSpeed : Option ℚ := none
  initialScale : Option ℚ := none
  initialPosition : Option (ℚ × ℚ) := none

/-- The mutable state owned by a `Viewport` (container size is passed to the
operations that read `getBoundingClientRect`). -/
structure Viewport where
  minScale : ℚ
  maxScale : ℚ
  zoomSpeed : ℚ
  transform : VTransform
  isDragging : Bool
  dragStart : ℚ × ℚ
  dragOffset : ℚ × ℚ
deriving DecidableEq

/-- The `Viewport` constructor: `options.minScale || 0.1`, `options.maxScale || 5`,
`options.zoomSpeed || 0.1`, `options.initialPosition?.x || 0` (likewise `y`),
`options.initialScale || 1`.  No clamping is performed. -/
def mkViewport (opts : ViewportOptions) : Viewport where
  minScale := jsOr opts.minScale (1/10)
  maxScale := jsOr opts.maxScale 5
  zoomSpeed := jsOr opts.zoomSpeed (1/10)
  transform :=
    { x := jsOr (opts.initialPosition.map Prod.fst) 0
      y := jsOr (opts.initialPosition.map Prod.snd) 0
      scale := jsOr opts.initialScale 1 }
  isDragging := false
  dragStart := (0, 0)
  dragOffset := (0, 0)

/-- `setTransform(partial)` (immediate path): merge only provided fields,
clamping a provided scale into `[minScale, maxScale]`. -/
def Viewport.setTransform (v : Viewport) (tx ty ts : Option ℚ) : Viewport :=
  { v with transform :=
    { x := tx.getD v.transform.x
      y := ty.getD v.transform.y
      scale :=
        match ts with
        | some s => clamp s v.minScale v.maxScale
        | none => v.transform.scale } }

/-- `zoom(delta, center?)`: multiply the scale by `1 + delta * zoomSpeed`,
clamp, early-return if unchanged, and if a center is given adjust the
translation so the anchored document point stays under the center. -/
def Viewport.zoom (v : Viewport) (delta : ℚ) (center : Option (ℚ × ℚ)) : Viewport :=
  let factor := 1 + delta * v.zoomSpeed
  let newScale := clamp (v.transform.scale * factor) v.minScale v.maxScale
  if newScale = v.transform.scale then v
  else
    let t : VTransform :=
      match center with
      | some c =>
        let ratio := newScale / v.transform.scale
        { x := c.1 - (c.1 - v.transform.x) * ratio
          y := c.2 - (c.2 - v.transform.y) * ratio
          scale := v.transform.scale }
      | none => v.transform
    { v with transform := { t with scale := newScale } }

/-- `zoomIn(center?)` is `zoom(1, center)`. -/
def Viewport.zoomIn (v : Viewport) (center : Option (ℚ × ℚ)) : Viewport := v.zoom 1 center

/-- `zoomOut(center?)` is `zoom(-1, center)`. -/
def Viewport.zoomOut (v : Viewport) (center : Option (ℚ × ℚ)) : Viewport := v.zoom (-1) center

/-- `resetZoom()` goes through `setTransform({scale: 1})`. -/
def Viewport.resetZoom (v : Viewport) : Viewport := v.setTransform none none (some 1)

/-- `pan(dx, dy)`: direct translation delta. -/
def Viewport.pan (v : Viewport) (dx dy : ℚ) : Viewport :=
  { v with transform := { v.transform with x := v.transform.x + dx, y := v.transform.y + dy } }

/-- `centerTo(point)` for a container of size `w × h`: place the document
point at the surface center using the current scale, via `setTransform`. -/
def Viewport.centerTo (v : Viewport) (w h : ℚ) (p : ℚ × ℚ) : Viewport :=
  v.setTransform (some (w / 2 - p.1 * v.transform.scale))
    (some (h / 2 - p.2 * v.transform.scale)) none

/-- Axis-aligned bounds, as in the `Bounds` interface. -/
structure VBounds where
  minX : ℚ
  minY : ℚ
  maxX : ℚ
  maxY : ℚ
deriving DecidableEq

/-- `fitBounds(bounds, padding)` for a container of size `w × h`. -/
def Viewport.fitBounds (v : Viewport) (w h : ℚ) (b : VBounds) (padding : ℚ) : Viewport :=
  let boundsWidth := b.maxX - b.minX
  let boundsHeight := b.maxY - b.minY
  let scaleX := (w - padding * 2) / boundsWidth
  let scaleY := (h - padding * 2) / boundsHeight
  let scale := clamp (min scaleX scaleY) v.minScale v.maxScale
  let centerX := (b.minX + b.maxX) / 2
  let centerY := (b.minY + b.maxY) / 2
  v.setTransform (some (w / 2 - centerX * scale)) (some (h / 2 - centerY * scale)) (some scale)

/-- `startDrag(point)`: capture anchor point and current translation. -/
def Viewport.startDrag (v : Viewport) (p : ℚ × ℚ) : Viewport :=
  { v with isDragging := true, dragStart := p,
           dragOffset := (v.transform.x, v.transform.y) }

/-- `drag(point)`: no-op without an active session; otherwise recompute the
translation from the drag-start state. -/
def Viewport.drag (v : Viewport) (p : ℚ × ℚ) : Viewport :=
  if v.isDragging then
    { v with transform :=
      { v.transform with
        x := v.dragOffset.1 + (p.1 - v.dragStart.1)
        y := v.dragOffset.2 + (p.2 - v.dragStart.2) } }
  else v

/-- `endDrag()`. -/
def Viewport.endDrag (v : Viewport) : Viewport := { v with isDragging := false }

/-- `screenToWorld(point)`: `( (px - x)/scale, (py - y)/scale )`. -/
def Viewport.screenToWorld (v : Viewport) (p : ℚ × ℚ) : ℚ × ℚ :=
  ((p.1 - v.transform.x) / v.transform.scale, (p.2 - v.transform.y) / v.transform.scale)

/-- `worldToScreen(point)`: `( px*scale + x, py*scale + y )`. -/
def Viewport.worldToScreen (v : Viewport) (p : ℚ × ℚ) : ℚ × ℚ :=
  (p.1 * v.transform.scale + v.transform.x, p.2 * v.transform.scale + v.transform.y)

/-- One public viewport call, for reasoning about arbitrary call sequences. -/
inductive VOp where
  | setT (tx ty ts : Option ℚ)
  | zoomBy (delta : ℚ) (center : Option (ℚ × ℚ))
  | panBy (dx dy : ℚ)
  | centerOn (w h : ℚ) (p : ℚ × ℚ)
  | fit (w h : ℚ) (b : VBounds) (padding : ℚ)
  | reset
  | dragFrom (p : ℚ × ℚ)
  | dragMove (p : ℚ × ℚ)
  | dragEnd

/-- Apply one viewport call. -/
def Viewport.applyOp (v : Viewport) : VOp → Viewport
  | .setT tx ty ts => v.setTransform tx ty ts
  | .zoomBy d c => v.zoom d c
  | .panBy dx dy => v.pan dx dy
  | .centerOn w h p => v.centerTo w h p
  | .fit w h b pad => v.fitBounds w h b pad
  | .reset => v.resetZoom
  | .dragFrom p => v.startDrag p
  | .dragMove p => v.drag p
  | .dragEnd => v.endDrag

/-- Apply a sequence of viewport calls. -/
def Viewport.applyOps (v : Viewport) (ops : List VOp) : Viewport :=
  ops.foldl Viewport.applyOp v

/-- The scale invariant of interest: scale within `[minScale, maxScale]`. -/
def Viewport.ScaleInRange (v : Viewport) : Prop :=
  v.minScale ≤ v.transform.scale ∧ v.transform.scale ≤ v.maxScale

theorem Viewport.setTransform_bounds (v : Viewport) (tx ty ts : Option ℚ)
    (hle : v.minScale ≤ v.maxScale) (hv : v.ScaleInRange) :
    (v.setTransform tx ty ts).ScaleInRange := by
  obtain ⟨h1, h2⟩ := hv
  cases ts with
  | none => exact ⟨h1, h2⟩
  | some s => exact ⟨le_clamp hle s, clamp_le s⟩

theorem Viewport.applyOp_minScale (v : Viewport) (op : VOp) :
    (v.applyOp op).minScale = v.minScale := by
  cases op <;>
    simp [Viewport.applyOp, Viewport.setTransform, Viewport.zoom, Viewport.pan,
      Viewport.centerTo, Viewport.fitBounds, Viewport.resetZoom, Viewport.startDrag,
      Viewport.drag, Viewport.endDrag] <;>
    split <;> rfl

theorem Viewport.applyOp_maxScale (v : Viewport) (op : VOp) :
    (v.applyOp op).maxScale = v.maxScale := by
  cases op <;>
    simp [Viewport.applyOp, Viewport.setTransform, Viewport.zoom, Viewport.pan,
      Viewport.centerTo, Viewport.fitBounds, Viewport.resetZoom, Viewport.startDrag,
      Viewport.drag, Viewport.endDrag] <;>
    split <;> rfl

theorem Viewport.applyOp_bounds (v : Viewport) (op : VOp)
    (hle : v.minScale ≤ v.maxScale) (hv : v.ScaleInRange) :
    (v.applyOp op).ScaleInRange := by
  obtain ⟨h1, h2⟩ := hv
  cases op with
  | setT tx ty ts => exact v.setTransform_bounds tx ty ts hle ⟨h1, h2⟩
  | zoomBy d c =>
    simp only [Viewport.applyOp, Viewport.zoom]
    split
    · exact ⟨h1, h2⟩
    · cases c <;>
        exact ⟨le_clamp hle _, clamp_le _⟩
  | panBy dx dy => exact ⟨h1, h2⟩
  | centerOn w h p =>
    exact v.setTransform_bounds _ _ _ hle ⟨h1, h2⟩
  | fit w h b pad =>
    exact v.setTransform_bounds _ _ _ hle ⟨h1, h2⟩
  | reset => exact v.setTransform_bounds _ _ _ hle ⟨h1, h2⟩
  | dragFrom p => exact ⟨h1, h2⟩
  | dragMove p =>
    simp only [Viewport.applyOp, Viewport.drag]
    split <;> exact ⟨h1, h2⟩
  | dragEnd => exact ⟨h1, h2⟩

theorem Viewport.applyOps_bounds (v : Viewport) (ops : List VOp)
    (hle : v.minScale ≤ v.maxScale) (hv : v.ScaleInRange) :
    (v.applyOps ops).ScaleInRange := by
  induction ops generalizing v with
  | nil => exact hv
  | cons op rest ih =>
    have h1 := v.applyOp_bounds op hle hv
    have h2 : (v.applyOp op).minScale ≤ (v.applyOp op).maxScale := by
      rw [v.applyOp_minScale op, v.applyOp_maxScale op]; exact hle
    exact ih (v.applyOp op) h2 h1

/-! ### Claim theorems for the viewport (C6, C7, C10) -/

/-- C6 (counterexample): the claim "for every Viewport, from construction
onward, for any constructor options, the scale lies within
`[minScale, maxScale]`" is false at construction: with `minScale = 2` and all
other options defaulted, the initial scale is `1`, below `minScale`. -/
theorem c6_scale_invariant_counterexample :
    (mkViewport ⟨some 2, none, none, none, none⟩).minScale = 2 ∧
    (mkViewport ⟨some 2, none, none, none, none⟩).transform.scale = 1 ∧
    ¬ (mkViewport ⟨some 2, none, none, none, none⟩).ScaleInRange := by
  refine ⟨rfl, rfl, ?_⟩
  intro h
  have h1 := h.1
  norm_num [mkViewport, jsOr] at h1

/-- C6 (amended): the constructor does not clamp, so the invariant is stated
for viewports whose effective bounds are ordered and whose effective initial
scale already lies within them (in particular any all-default construction):
after every sequence of `setTransform`, `zoom`, `pan`, drag, `centerTo`,
`fitBounds` and `resetZoom` calls, the transform's scale stays within
`[minScale, maxScale]`. -/
theorem c6_scale_invariant (opts : ViewportOptions) (ops : List VOp)
    (hle : (mkViewport opts).minScale ≤ (mkViewport opts).maxScale)
    (hinit : (mkViewport opts).ScaleInRange) :
    ((mkViewport opts).applyOps ops).ScaleInRange :=
  Viewport.applyOps_bounds _ ops hle hinit

/-- Witness for C6: a default-constructed viewport after a zoom, a pan, a
fit and a drag still has its scale in range. -/
theorem c6_scale_invariant_witness :
    ((mkViewport ⟨none, none, none, none, none⟩).applyOps
      [VOp.zoomBy 1 (some (10, 10)), VOp.panBy 3 4,
       VOp.fit 800 600 ⟨0, 0, 1000, 500⟩ 50, VOp.dragFrom (1, 1),
       VOp.dragMove (7, 9), VOp.dragEnd]).ScaleInRange :=
  c6_scale_invariant _ _ (by norm_num [mkViewport, jsOr])
    (by constructor <;> norm_num [mkViewport, jsOr])

/-- C7: zoom anchoring.  For a viewport with positive scale and positive,
ordered scale bounds, if `zoom(delta, A)` changes the scale then
`screenToWorld(A)` after the zoom equals `screenToWorld(A)` before it: the
anchored document point stays under the surface point `A`. -/
theorem c7_zoom_anchored (v : Viewport) (delta : ℚ) (A : ℚ × ℚ)
    (hminpos : 0 < v.minScale) (hle : v.minScale ≤ v.maxScale)
    (hs : 0 < v.transform.scale)
    (hchange : (v.zoom delta (some A)).transform.scale ≠ v.transform.scale) :
    (v.zoom delta (some A)).screenToWorld A = v.screenToWorld A := by
  by_cases heq :
      clamp (v.transform.scale * (1 + delta * v.zoomSpeed)) v.minScale v.maxScale
        = v.transform.scale
  · exfalso
    apply hchange
    simp [Viewport.zoom, heq]
  · have hns : 0 < clamp (v.transform.scale * (1 + delta * v.zoomSpeed))
        v.minScale v.maxScale :=
      lt_of_lt_of_le hminpos (le_clamp hle _)
    simp only [Viewport.zoom, Viewport.screenToWorld, if_neg heq]
    have h1 : (clamp (v.transform.scale * (1 + delta * v.zoomSpeed))
        v.minScale v.maxScale) ≠ 0 := ne_of_gt hns
    have h2 : v.transform.scale ≠ 0 := ne_of_gt hs
    refine Prod.ext ?_ ?_ <;> field_simp <;> ring

/-- Witness for C7: default viewport, `zoom(1, (10,10))` changes the scale to
`11/10` and the anchored point is preserved. -/
theorem c7_zoom_anchored_witness :
    ((mkViewport ⟨none, none, none, none, none⟩).zoom 1 (some (10, 10))).screenToWorld (10, 10)
      = (mkViewport ⟨none, none, none, none, none⟩).screenToWorld (10, 10) :=
  c7_zoom_anchored _ 1 (10, 10) (by norm_num [mkViewport, jsOr])
    (by norm_num [mkViewport, jsOr]) (by norm_num [mkViewport, jsOr])
    (by norm_num [Viewport.zoom, mkViewport, jsOr, clamp, min_def, max_def])

/-- C10 (counterexample): the claim's parenthetical "the effective scale lower
bound is always strictly positive" is false: `minScale = -1` is truthy and is
kept as the effective lower bound. -/
theorem c10_zero_defaults_counterexample :
    (mkViewport ⟨some (-1), none, none, none, none⟩).minScale = -1 ∧
    ¬ (0 < (mkViewport ⟨some (-1), none, none, none, none⟩).minScale) := by
  constructor
  · norm_num [mkViewport, jsOr]
  · norm_num [mkViewport, jsOr]

/-- C10 (amended): an option explicitly given the value `0` is treated as
absent — `minScale 0` becomes `0.1`, `maxScale 0` becomes `5`, `zoomSpeed 0`
becomes `0.1`, `initialScale 0` becomes `1` — and the effective scale lower
bound is strictly positive whenever `minScale` is absent or nonnegative (a
negative `minScale` is kept as given). -/
theorem c10_zero_defaults (opts : ViewportOptions) :
    (opts.minScale = some 0 → (mkViewport opts).minScale = 1/10) ∧
    (opts.maxScale = some 0 → (mkViewport opts).maxScale = 5) ∧
    (opts.zoomSpeed = some 0 → (mkViewport opts).zoomSpeed = 1/10) ∧
    (opts.initialScale = some 0 → (mkViewport opts).transform.scale = 1) ∧
    (∀ q : ℚ, opts.minScale = some q → 0 ≤ q → 0 < (mkViewport opts).minScale) ∧
    (opts.minScale = none → 0 < (mkViewport opts).minScale) := by
  refine ⟨?_, ?_, ?_, ?_, ?_, ?_⟩
  · intro h; simp [mkViewport, jsOr, h]
  · intro h; simp [mkViewport, jsOr, h]
  · intro h; simp [mkViewport, jsOr, h]
  · intro h; simp [mkViewport, jsOr, h]
  · intro q h hq
    simp only [mkViewport, jsOr, h]
    by_cases h0 : q = 0
    · simp only [h0, if_pos rfl]; norm_num
    · simp only [if_neg h0]; exact lt_of_le_of_ne hq (Ne.symm h0)
  · intro h; simp only [mkViewport, jsOr, h]; norm_num

/-- Witness for C10: all four options given as `0` fall back to their
defaults, and the defaulted lower bound is positive. -/
theorem c10_zero_defaults_witness :
    (mkViewport ⟨some 0, some 0, some 0, some 0, none⟩).minScale = 1/10 ∧
    (mkViewport ⟨some 0, some 0, some 0, some 0, none⟩).maxScale = 5 ∧
    (mkViewport ⟨some 0, some 0, some 0, some 0, none⟩).zoomSpeed = 1/10 ∧
    (mkViewport ⟨some 0, some 0, some 0, some 0, none⟩).transform.scale = 1 ∧
    0 < (mkViewport ⟨some 0, some 0, some 0, some 0, none⟩).minScale := by
  have h := c10_zero_defaults ⟨some 0, some 0, some 0, some 0, none⟩
  exact ⟨h.1 rfl, h.2.1 rfl, h.2.2.1 rfl, h.2.2.2.1 rfl, h.2.2.2.2.1 0 rfl le_rfl⟩

/-! ### Command history (command module: `BaseCommand`, `CommandHistory`)

Commands are polymorphic and stateful in the source; here the command type
`C` and the mutable target state `S` are abstract, and a `CmdOps` record
supplies the `execute`/`undo`/`redo`/`canMerge`/`merge` capabilities.  A
command body that throws is modelled by returning `none`. -/

/-- The capability contract of `Command` (`BaseCommand` supplies
`redo() { this.execute() }` as default; `redoFn` is kept separate so an
override is representable). -/
structure CmdOps (C S : Type) where
  exec : C → S → Option S
  undoFn : C → S → Option S
  redoFn : C → S → Option S
  canMerge : C → C → Bool
  merge : C → C → C

/-- The `CommandHistory` state: the two stacks are kept oldest-first, so the
top of a stack is its last element (`push` appends, `pop` removes the last
element, `shift` removes the head). -/
structure History (C : Type) where
  undoStack : List C
  redoStack : List C
  maxStackSize : Nat
  isExecuting : Bool

/-- The `CommandHistory` constructor. -/
def mkHistory (C : Type) (maxStackSize : Nat := 100) : History C :=
  ⟨[], [], maxStackSize, false⟩

/-- Result of a call that can throw: a normal return with value `a`, or a
propagated exception. -/
inductive TryResult (α : Type) where
  | ok (a : α)
  | threw
deriving DecidableEq

/-- `CommandHistory.execute(command)`: no-op under the re-entrancy guard;
otherwise run the command, then merge into the undo-stack top when
`canMerge` allows it, else push (with eviction of the oldest entry past
`maxStackSize`) and clear the redo stack.  The guard is cleared in a
`finally`, so it is clear on return even when the command throws (in which
case neither stack was touched yet). -/
def History.execute (ops : CmdOps C S) (h : History C) (cmd : C) (st : S) :
    History C × S × TryResult Unit :=
  if h.isExecuting then (h, st, .ok ())
  else
    match ops.exec cmd st with
    | none => ({ h with isExecuting := false }, st, .threw)
    | some st' =>
      let newUndo : List C :=
        match h.undoStack.getLast? with
        | some lastCommand =>
          if ops.canMerge lastCommand cmd then
            h.undoStack.dropLast ++ [ops.merge lastCommand cmd]
          else
            let l := h.undoStack ++ [cmd]
            if h.maxStackSize < l.length then l.tail else l
        | none =>
          let l := h.undoStack ++ [cmd]
          if h.maxStackSize < l.length then l.tail else l
      (⟨newUndo, [], h.maxStackSize, false⟩, st', .ok ())

/-- `CommandHistory.undo()`: returns `false` when the undo stack is empty or
the guard is set; otherwise pops the top, runs its `undo`, pushes it onto the
redo stack and returns `true`.  If `undo()` throws, the pop has already
happened and the redo push has not. -/
def History.undo (ops : CmdOps C S) (h : History C) (st : S) :
    History C × S × TryResult Bool :=
  if h.undoStack.length = 0 ∨ h.isExecuting then (h, st, .ok false)
  else
    match h.undoStack.getLast? with
    | none => (h, st, .ok false)
    | some cmd =>
      match ops.undoFn cmd st with
      | none => (⟨h.undoStack.dropLast, h.redoStack, h.maxStackSize, false⟩, st, .threw)
      | some st' =>
        (⟨h.undoStack.dropLast, h.redoStack ++ [cmd], h.maxStackSize, false⟩, st', .ok true)

/-- `CommandHistory.redo()`: symmetric to `undo`, popping the redo stack and
running the command's `redo`. -/
def History.redo (ops : CmdOps C S) (h : History C) (st : S) :
    History C × S × TryResult Bool :=
  if h.redoStack.length = 0 ∨ h.isExecuting then (h, st, .ok false)
  else
    match h.redoStack.getLast? with
    | none => (h, st, .ok false)
    | some cmd =>
      match ops.redoFn cmd st with
      | none => (⟨h.undoStack, h.redoStack.dropLast, h.maxStackSize, false⟩, st, .threw)
      | some st' =>
        (⟨h.undoStack ++ [cmd], h.redoStack.dropLast, h.maxStackSize, false⟩, st', .ok true)

/-- `CommandHistory.clear()`. -/
def History.clearAll (h : History C) : History C :=
  ⟨[], [], h.maxStackSize, h.isExecuting⟩

/-- `CommandHistory.canUndo()`. -/
def History.canUndo (h : History C) : Bool :=
  0 < h.undoStack.length && !h.isExecuting

/-- `CommandHistory.canRedo()`. -/
def History.canRedo (h : History C) : Bool :=
  0 < h.redoStack.length && !h.isExecuting

/-! ### Claim theorems for the command history (C3, C8) -/

/-- C3: for a history that is not currently executing, and a command whose
body completes, `execute` applies the command's effect to the state and then
either merges it into the undo-stack top (`canMerge` true, depth unchanged)
or pushes it (evicting the oldest entry when the depth would exceed
`maxStackSize`); the redo stack is empty afterwards. -/
theorem c3_execute_spec (ops : CmdOps C S) (h : History C) (cmd : C) (st st' : S)
    (hguard : h.isExecuting = false)
    (hrun : ops.exec cmd st = some st') :
    (h.execute ops cmd st).2.1 = st' ∧
    (h.execute ops cmd st).2.2 = .ok () ∧
    (h.execute ops cmd st).1.redoStack = [] ∧
    (h.execute ops cmd st).1.maxStackSize = h.maxStackSize ∧
    (∀ top, h.undoStack.getLast? = some top → ops.canMerge top cmd = true →
      (h.execute ops cmd st).1.undoStack
          = h.undoStack.dropLast ++ [ops.merge top cmd] ∧
      (h.execute ops cmd st).1.undoStack.length = h.undoStack.length) ∧
    ((h.undoStack.getLast? = none ∨
        (∃ top, h.undoStack.getLast? = some top ∧ ops.canMerge top cmd = false)) →
      (h.execute ops cmd st).1.undoStack
        = (if h.maxStackSize < (h.undoStack ++ [cmd]).length
            then (h.undoStack ++ [cmd]).tail else h.undoStack ++ [cmd])) := by
  refine ⟨?_, ?_, ?_, ?_, ?_, ?_⟩
  · simp [History.execute, hguard, hrun]
  · simp [History.execute, hguard, hrun]
  · simp [History.execute, hguard, hrun]
  · simp [History.execute, hguard, hrun]
  · intro top htop hmerge
    have hne : h.undoStack ≠ [] := by
      intro hnil; rw [hnil] at htop; simp at htop
    have hpos : 0 < h.undoStack.length := List.length_pos.mpr hne
    constructor
    · simp [History.execute, hguard, hrun, htop, hmerge]
    · simp only [History.execute, hguard, hrun, htop, hmerge]
      simp [List.length_dropLast]
      omega
  · intro hcase
    rcases hcase with hnone | ⟨top, htop, hmerge⟩
    · simp [History.execute, hguard, hrun, hnone]
    · simp [History.execute, hguard, hrun, htop, hmerge]

/-- Witness for C3: executing `5` on an empty history over `S = Nat` with
`exec c s = some (s + c)` pushes the command and leaves the redo stack
empty. -/
theorem c3_execute_spec_witness :
    ((mkHistory Nat 100).execute
        ⟨fun c s => some (s + c), fun c s => some (s - c), fun c s => some (s + c),
          fun _ _ => false, fun a _ => a⟩ 5 0).2.1 = 5 ∧
    ((mkHistory Nat 100).execute
        ⟨fun c s => some (s + c), fun c s => some (s - c), fun c s => some (s + c),
          fun _ _ => false, fun a _ => a⟩ 5 0).2.2 = .ok () ∧
    ((mkHistory Nat 100).execute
        ⟨fun c s => some (s + c), fun c s => some (s - c), fun c s => some (s + c),
          fun _ _ => false, fun a _ => a⟩ 5 0).1.redoStack = [] ∧
    ((mkHistory Nat 100).execute
        ⟨fun c s => some (s + c), fun c s => some (s - c), fun c s => some (s + c),
          fun _ _ => false, fun a _ => a⟩ 5 0).1.maxStackSize = 100 ∧
    ((mkHistory Nat 100).execute
        ⟨fun c s => some (s + c), fun c s => some (s - c), fun c s => some (s + c),
          fun _ _ => false, fun a _ => a⟩ 5 0).1.undoStack = [5] := by
  have h := c3_execute_spec
    ⟨fun c s => some (s + c), fun c s => some (s - c), fun c s => some (s + c),
      fun _ _ => false, fun a _ => a⟩ (mkHistory Nat 100) 5 0 5 rfl rfl
  refine ⟨h.1, h.2.1, h.2.2.1, h.2.2.2.1, ?_⟩
  have h6 := h.2.2.2.2.2 (Or.inl rfl)
  simpa [mkHistory] using h6

/-- C8: when the re-entrancy guard is set, a nested `execute` performs
nothing (the command is not run, both stacks and the state are unchanged) and
nested `undo`/`redo` return `false` without popping; and for any history
whose guard is clear, the guard is clear again after `execute`/`undo`/`redo`
return — also when the command body throws. -/
theorem c8_reentrancy_guard (ops : CmdOps C S) (h : History C) (cmd : C) (st : S)
    (hguard : h.isExecuting = true) :
    h.execute ops cmd st = (h, st, .ok ()) ∧
    h.undo ops st = (h, st, .ok false) ∧
    h.redo ops st = (h, st, .ok false) ∧
    (∀ h' : History C, h'.isExecuting = false →
      (h'.execute ops cmd st).1.isExecuting = false ∧
      (h'.undo ops st).1.isExecuting = false ∧
      (h'.redo ops st).1.isExecuting = false) := by
  refine ⟨?_, ?_, ?_, ?_⟩
  · simp [History.execute, hguard]
  · simp [History.undo, hguard]
  · simp [History.redo, hguard]
  · intro h' hg
    refine ⟨?_, ?_, ?_⟩
    · cases hx : ops.exec cmd st <;> simp [History.execute, hg, hx]
    · by_cases hlen : h'.undoStack.length = 0
      · simp [History.undo, hlen, hg]
      · cases hl : h'.undoStack.getLast? with
        | none => simp [History.undo, hlen, hg, hl]
        | some cmd' =>
          cases hu : ops.undoFn cmd' st <;> simp [History.undo, hlen, hg, hl, hu]
    · by_cases hlen : h'.redoStack.length = 0
      · simp [History.redo, hlen, hg]
      · cases hl : h'.redoStack.getLast? with
        | none => simp [History.redo, hlen, hg, hl]
        | some cmd' =>
          cases hu : ops.redoFn cmd' st <;> simp [History.redo, hlen, hg, hl, hu]

/-- Witness for C8: a guarded history ignores nested calls, and an
unguarded history has a clear guard after each call. -/
theorem c8_reentrancy_guard_witness :
    (History.execute
        ⟨fun c s => some (s + c), fun c s => some (s - c), fun c s => some (s + c),
          fun _ _ => false, fun a _ => a⟩
        (⟨[1], [2], 100, true⟩ : History Nat) 5 0)
      = ((⟨[1], [2], 100, true⟩ : History Nat), 0, .ok ()) ∧
    (History.undo
        ⟨fun c s => some (s + c), fun c s => some (s - c), fun c s => some (s + c),
          fun _ _ => false, fun a _ => a⟩
        (⟨[1], [2], 100, true⟩ : History Nat) 0)
      = ((⟨[1], [2], 100, true⟩ : History Nat), 0, .ok false) := by
  have h := c8_reentrancy_guard
    ⟨fun c s => some (s + c), fun c s => some (s - c), fun c s => some (s + c),
      fun _ _ => false, fun a _ => a⟩
    (⟨[1], [2], 100, true⟩ : History Nat) 5 0 rfl
  exact ⟨h.1, h.2.1⟩

/-! ### Node tree as a pointer store

`MindNode` objects form a pointer structure: each node has a `parent`
back-reference and an ordered `children` list.  The heap is modelled as a
total map from node identity (a natural number) to its structural record;
the structural mutators `addChild`, `removeChild` and `moveTo` become store
transformers.  The unbounded `while (current)` loop of `isDescendantOf` is
modelled with explicit fuel. -/

/-- The structural part of a `MindNode`: parent back-reference and ordered
children. -/
structure NodeCore where
  parent : Option Nat
  children : List Nat
deriving DecidableEq

/-- The heap of nodes, addressed by identity. -/
def Store := Nat → NodeCore

/-- Write one node record. -/
def updStore (s : Store) (i : Nat) (n : NodeCore) : Store :=
  fun j => if j = i then n else s j

/-- Assign `node.parent`. -/
def setParent (s : Store) (i : Nat) (p : Option Nat) : Store :=
  updStore s i { s i with parent := p }

/-- Assign `node.children`. -/
def setChildren (s : Store) (i : Nat) (cs : List Nat) : Store :=
  updStore s i { s i with children := cs }

/-- `removeChild(child)` (by reference) on node `p`: if `c` occurs in
`p.children`, null its parent and splice it out of the list (first
occurrence, as `indexOf`/`splice` do), returning whether removal occurred. -/
def removeChild (s : Store) (p c : Nat) : Store × Bool :=
  if c ∈ (s p).children then
    let s1 := setParent s c none
    (setChildren s1 p (((s1 p).children).erase c), true)
  else (s, false)

/-- The insertion position logic of `addChild`: splice at `index` when
`0 ≤ index ≤ children.length`, otherwise push (append). -/
def jsInsert (index : Option Int) (cs : List Nat) (c : Nat) : List Nat :=
  match index with
  | some i => if 0 ≤ i ∧ i ≤ (cs.length : Int) then cs.insertIdx i.toNat c else cs ++ [c]
  | none => cs ++ [c]

/-- `addChild(node, index?)`: set the child's parent to `p`, then insert it
into `p.children` at the (validated, not clamped) index or append. -/
def addChild (s : Store) (p c : Nat) (index : Option Int) : Store :=
  let s1 := setParent s c (some p)
  setChildren s1 p (jsInsert index ((s1 p).children) c)

/-- The `while (current) { if (current === node) return true; current =
current.parent }` loop of `isDescendantOf`, with fuel. -/
def chainMem (s : Store) (target : Nat) : Nat → Option Nat → Bool
  | _, none => false
  | 0, some _ => false
  | fuel + 1, some cur =>
    if cur = target then true else chainMem s target fuel (s cur).parent

/-- `a.isDescendantOf(b)`: walk `a`'s parent chain looking for `b`. -/
def isDescendantOf (s : Store) (fuel : Nat) (a b : Nat) : Bool :=
  chainMem s b fuel ((s a).parent)

/-- `k`-fold iteration of the parent pointer. -/
def parentIter (s : Store) : Nat → Nat → Option Nat
  | 0, a => some a
  | k + 1, a =>
    match (s a).parent with
    | none => none
    | some q => parentIter s k q

/-- `a` is a (strict) descendant of `b`: some positive number of parent
steps leads from `a` to `b`. -/
def Descendant (s : Store) (a b : Nat) : Prop :=
  ∃ k, 1 ≤ k ∧ parentIter s k a = some b

/-- `moveTo(newParent, index?)`: reject when the new parent is the node
itself or one of its descendants; otherwise detach from the old parent (when
present) and attach to the new parent. -/
def moveTo (s : Store) (fuel : Nat) (n p : Nat) (index : Option Int) : Store × Bool :=
  if p = n ∨ isDescendantOf s fuel p n = true then (s, false)
  else
    let s1 :=
      match (s n).parent with
      | some q => (removeChild s q n).1
      | none => s
    (addChild s1 p n index, true)

theorem updStore_self (s : Store) (i : Nat) (n : NodeCore) : updStore s i n i = n := by
  simp [updStore]

theorem updStore_other (s : Store) (n : NodeCore) (h : j ≠ i) : updStore s i n j = s j := by
  simp [updStore, h]

theorem setParent_children (s : Store) (i : Nat) (p : Option Nat) (j : Nat) :
    (setParent s i p j).children = (s j).children := by
  by_cases h : j = i
  · subst h; simp [setParent, updStore]
  · simp [setParent, updStore, h]

theorem setParent_parent_self (s : Store) (i : Nat) (p : Option Nat) :
    (setParent s i p i).parent = p := by
  simp [setParent, updStore]

theorem setParent_parent_other (s : Store) (i : Nat) (p : Option Nat) (h : j ≠ i) :
    (setParent s i p j).parent = (s j).parent := by
  simp [setParent, updStore, h]

theorem setChildren_parent (s : Store) (i : Nat) (cs : List Nat) (j : Nat) :
    (setChildren s i cs j).parent = (s j).parent := by
  by_cases h : j = i
  · subst h; simp [setChildren, updStore]
  · simp [setChildren, updStore, h]

theorem setChildren_children_self (s : Store) (i : Nat) (cs : List Nat) :
    (setChildren s i cs i).children = cs := by
  simp [setChildren, updStore]

theorem setChildren_children_other (s : Store) (i : Nat) (cs : List Nat) (h : j ≠ i) :
    (setChildren s i cs j).children = (s j).children := by
  simp [setChildren, updStore, h]

theorem removeChild_children_self (s : Store) (q c : Nat) (h : c ∈ (s q).children) :
    ((removeChild s q c).1 q).children = ((s q).children).erase c := by
  simp only [removeChild, if_pos h]
  rw [setChildren_children_self, setParent_children]

theorem removeChild_children_other (s : Store) (q c : Nat)
    (hm : m ≠ q) : ((removeChild s q c).1 m).children = (s m).children := by
  by_cases h : c ∈ (s q).children
  · simp only [removeChild, if_pos h]
    rw [setChildren_children_other _ _ _ hm, setParent_children]
  · simp [removeChild, h]

theorem removeChild_not_mem (s : Store) (q c : Nat) (h : c ∉ (s q).children) :
    removeChild s q c = (s, false) := by
  simp [removeChild, h]

theorem removeChild_parent_other (s : Store) (q c : Nat) (hm : m ≠ c) :
    ((removeChild s q c).1 m).parent = (s m).parent := by
  by_cases h : c ∈ (s q).children
  · simp only [removeChild, if_pos h]
    rw [setChildren_parent, setParent_parent_other _ _ _ hm]
  · simp [removeChild, h]

theorem addChild_parent_self (s : Store) (p c : Nat) (index : Option Int) :
    ((addChild s p c index) c).parent = some p := by
  simp only [addChild]
  rw [setChildren_parent, setParent_parent_self]

theorem addChild_parent_other (s : Store) (p c : Nat) (index : Option Int) (hm : m ≠ c) :
    ((addChild s p c index) m).parent = (s m).parent := by
  simp only [addChild]
  rw [setChildren_parent, setParent_parent_other _ _ _ hm]

theorem addChild_children_self (s : Store) (p c : Nat) (index : Option Int) :
    ((addChild s p c index) p).children = jsInsert index ((s p).children) c := by
  simp only [addChild]
  rw [setChildren_children_self, setParent_children]

theorem addChild_children_other (s : Store) (p c : Nat) (index : Option Int) (hm : m ≠ p) :
    ((addChild s p c index) m).children = (s m).children := by
  simp only [addChild]
  rw [setChildren_children_other _ _ _ hm, setParent_children]

theorem mem_jsInsert (index : Option Int) (cs : List Nat) (c : Nat) :
    c ∈ jsInsert index cs c := by
  cases index with
  | none => simp [jsInsert]
  | some i =>
    simp only [jsInsert]
    split
    · next h =>
      have hle : i.toNat ≤ cs.length := by omega
      exact (List.mem_insertIdx hle).mpr (Or.inl rfl)
    · simp

/-- In a duplicate-free list, erasing an element removes it. -/
theorem nodup_not_mem_erase {l : List Nat} (h : l.Nodup) (a : Nat) : a ∉ l.erase a := by
  induction l with
  | nil => simp
  | cons b bs ih =>
    rw [List.nodup_cons] at h
    rw [List.erase_cons]
    split
    · next hba =>
      have hba' : b = a := by simpa using hba
      subst hba'; exact h.1
    · next hba =>
      have hba' : b ≠ a := by simpa using hba
      intro hmem
      rcases List.mem_cons.mp hmem with h1 | h1
      · exact hba' h1.symm
      · exact ih h.2 h1

theorem chainMem_sound (s : Store) (t : Nat) :
    ∀ fuel c, chainMem s t fuel (some c) = true →
      ∃ k, k ≤ fuel ∧ parentIter s k c = some t := by
  intro fuel
  induction fuel with
  | zero => intro c h; simp [chainMem] at h
  | succ f ih =>
    intro c h
    simp only [chainMem] at h
    split at h
    · next hct =>
      subst hct
      exact ⟨0, Nat.zero_le _, rfl⟩
    · next hct =>
      cases hp : (s c).parent with
      | none => rw [hp] at h; simp [chainMem] at h
      | some q =>
        rw [hp] at h
        obtain ⟨k, hk, hiter⟩ := ih q h
        refine ⟨k + 1, by omega, ?_⟩
        simp [parentIter, hp, hiter]

theorem chainMem_complete (s : Store) (t : Nat) :
    ∀ k c fuel, parentIter s (k + 1) c = some t → k + 1 ≤ fuel →
      chainMem s t fuel ((s c).parent) = true := by
  intro k
  induction k with
  | zero =>
    intro c fuel hiter hfuel
    simp only [parentIter] at hiter
    cases hp : (s c).parent with
    | none => rw [hp] at hiter; simp at hiter
    | some q =>
      rw [hp] at hiter
      simp only [parentIter] at hiter
      obtain rfl : q = t := by simpa using hiter
      obtain ⟨f, rfl⟩ : ∃ f, fuel = f + 1 := ⟨fuel - 1, by omega⟩
      simp [chainMem]
  | succ j ih =>
    intro c fuel hiter hfuel
    simp only [parentIter] at hiter
    cases hp : (s c).parent with
    | none => rw [hp] at hiter; simp at hiter
    | some q =>
      rw [hp] at hiter
      obtain ⟨f, rfl⟩ : ∃ f, fuel = f + 1 := ⟨fuel - 1, by omega⟩
      simp only [chainMem]
      split
      · rfl
      · exact ih q f hiter (by omega)

theorem isDescendantOf_sound (s : Store) (fuel a b : Nat)
    (h : isDescendantOf s fuel a b = true) : Descendant s a b := by
  simp only [isDescendantOf] at h
  cases hp : (s a).parent with
  | none => rw [hp] at h; cases fuel <;> simp [chainMem] at h
  | some c =>
    rw [hp] at h
    obtain ⟨k, _, hiter⟩ := chainMem_sound s b fuel c h
    refine ⟨k + 1, by omega, ?_⟩
    simp [parentIter, hp, hiter]

theorem isDescendantOf_complete (s : Store) (fuel a b k : Nat)
    (hk : 1 ≤ k) (hiter : parentIter s k a = some b) (hfuel : k ≤ fuel) :
    isDescendantOf s fuel a b = true := by
  obtain ⟨j, rfl⟩ : ∃ j, k = j + 1 := ⟨k - 1, by omega⟩
  exact chainMem_complete s b j a fuel hiter hfuel

/-! ### Claim theorems for the structural mutators (C1, C4) -/

/-- C1: `moveTo` rejects (returns `false` with the store untouched) exactly
when the new parent `p` is the node `n` itself or a descendant of `n`;
otherwise it detaches `n` from its old parent's children, sets `n.parent` to
`p`, inserts `n` into `p.children`, leaves every other node untouched, and
returns `true`.  The fuel hypothesis says the walk has enough fuel for any
actual parent chain from `p` to `n`; the `Nodup` hypothesis says the old
parent's children list is duplicate-free (invariant I2/I4 territory). -/
theorem c1_moveTo_spec (s : Store) (fuel : Nat) (n p : Nat) (index : Option Int)
    (hfuel : ∀ k, 1 ≤ k → parentIter s k p = some n → k ≤ fuel)
    (hnodup : ∀ q, (s n).parent = some q → ((s q).children).Nodup) :
    ((p = n ∨ Descendant s p n) → moveTo s fuel n p index = (s, false)) ∧
    (¬ (p = n ∨ Descendant s p n) →
      (moveTo s fuel n p index).2 = true ∧
      ((moveTo s fuel n p index).1 n).parent = some p ∧
      n ∈ ((moveTo s fuel n p index).1 p).children ∧
      (∀ q, (s n).parent = some q → q ≠ p →
        n ∉ ((moveTo s fuel n p index).1 q).children) ∧
      (∀ m, m ≠ p → (s n).parent ≠ some m →
        ((moveTo s fuel n p index).1 m).children = (s m).children) ∧
      (∀ m, m ≠ n → ((moveTo s fuel n p index).1 m).parent = (s m).parent)) := by
  constructor
  · intro hor
    rcases hor with heq | hdesc
    · simp [moveTo, heq]
    · obtain ⟨k, hk1, hkiter⟩ := hdesc
      have hkf : k ≤ fuel := hfuel k hk1 hkiter
      have : isDescendantOf s fuel p n = true :=
        isDescendantOf_complete s fuel p n k hk1 hkiter hkf
      simp [moveTo, this]
  · intro hneg
    push_neg at hneg
    obtain ⟨hpn, hdesc⟩ := hneg
    have hid : isDescendantOf s fuel p n = false := by
      cases hd : isDescendantOf s fuel p n
      · rfl
      · exact absurd (isDescendantOf_sound s fuel p n hd) hdesc
    have hcond : ¬ (p = n ∨ isDescendantOf s fuel p n = true) := by
      rw [hid]; simp [hpn]
    have hmv : moveTo s fuel n p index =
        ((addChild (match (s n).parent with
          | some q => (removeChild s q n).1
          | none => s) p n index), true) := by
      simp only [moveTo, if_neg hcond]
    rw [hmv]
    refine ⟨rfl, ?_, ?_, ?_, ?_, ?_⟩
    · exact addChild_parent_self _ p n index
    · rw [addChild_children_self]
      cases hp : (s n).parent with
      | none => exact mem_jsInsert index _ n
      | some q => exact mem_jsInsert index _ n
    · intro q hq hqp
      rw [hq]
      rw [addChild_children_other _ _ _ _ hqp]
      show n ∉ ((removeChild s q n).1 q).children
      by_cases hmem : n ∈ (s q).children
      · rw [removeChild_children_self s q n hmem]
        exact nodup_not_mem_erase (hnodup q hq) n
      · rw [removeChild_not_mem s q n hmem]
        exact hmem
    · intro m hmp hmq
      rw [addChild_children_other _ _ _ _ hmp]
      cases hp : (s n).parent with
      | none => rfl
      | some q =>
        have hmq' : m ≠ q := fun h => hmq (by rw [hp, h])
        exact removeChild_children_other s q n hmq'
    · intro m hmn
      rw [addChild_parent_other _ _ _ _ hmn]
      cases hp : (s n).parent with
      | none => rfl
      | some q => exact removeChild_parent_other s q n hmn

theorem parentIter_succ (s : Store) (k a : Nat) :
    parentIter s (k + 1) a =
      match (s a).parent with
      | none => none
      | some q => parentIter s k q := rfl

theorem parentIter_none (s : Store) (a : Nat) (h : (s a).parent = none) (k : Nat) :
    parentIter s (k + 1) a = none := by
  rw [parentIter_succ, h]

/-- A three-node example heap: node `0` is the root with children `[1, 2]`. -/
def exStore : Store := fun i =>
  if i = 0 then ⟨none, [1, 2]⟩
  else if i = 1 then ⟨some 0, []⟩
  else if i = 2 then ⟨some 0, []⟩
  else ⟨none, []⟩

theorem exStore_no_chain : ∀ k, 1 ≤ k → parentIter exStore k 2 ≠ some 1 := by
  intro k hk
  match k, hk with
  | 1, _ => decide
  | (j + 2), _ =>
    have hstep : parentIter exStore (j + 2) 2 = parentIter exStore (j + 1) 0 := rfl
    rw [hstep, parentIter_none exStore 0 rfl j]
    simp

/-- Witness for C1: in `exStore`, moving node `1` under its sibling `2`
succeeds, reparents `1`, inserts it under `2` and detaches it from `0`. -/
theorem c1_moveTo_spec_witness :
    (moveTo exStore 3 1 2 none).2 = true ∧
    ((moveTo exStore 3 1 2 none).1 1).parent = some 2 ∧
    1 ∈ ((moveTo exStore 3 1 2 none).1 2).children ∧
    1 ∉ ((moveTo exStore 3 1 2 none).1 0).children := by
  have h := c1_moveTo_spec exStore 3 1 2 none
    (fun k hk hiter => absurd hiter (exStore_no_chain k hk))
    (by
      intro q hq
      have h' : (some 0 : Option Nat) = some q := hq
      have hq0 : q = 0 := by
        injection h' with h''
        exact h''.symm
      subst hq0; decide)
  have hneg : ¬ (2 = 1 ∨ Descendant exStore 2 1) := by
    rintro (h21 | ⟨k, hk, hiter⟩)
    · exact absurd h21 (by decide)
    · exact exStore_no_chain k hk hiter
  obtain ⟨h1, h2, h3, h4, _, _⟩ := h.2 hneg
  exact ⟨h1, h2, h3, h4 0 rfl (by decide)⟩

/-- Example heap for `addChild`: root `0` with children `[1, 2]` and a
detached node `3`. -/
def exStore4 : Store := fun i =>
  if i = 0 then ⟨none, [1, 2]⟩
  else if i = 3 then ⟨none, []⟩
  else ⟨some 0, []⟩

/-- C4 (counterexample): the claim says a negative index inserts at
`clamp(index, 0, k) = 0`, the front; the code's validity test
`index >= 0 && index <= length` fails for `-1`, so it appends instead. -/
theorem c4_addChild_clamp_counterexample :
    ((addChild exStore4 0 3 (some (-1))) 0).children = [1, 2, 3] ∧
    List.insertIdx 0 3 [1, 2] = [3, 1, 2] ∧
    ((addChild exStore4 0 3 (some (-1))) 0).children ≠ List.insertIdx 0 3 [1, 2] := by
  refine ⟨?_, ?_, ?_⟩ <;> decide

/-- C4 (amended): `addChild` always succeeds and sets the child's parent to
`p`; it inserts at `index` only when `0 ≤ index ≤ k`, and otherwise — for a
negative index, an index greater than `k`, or no index — appends at the end
(a negative index is not clamped to the front). -/
theorem c4_addChild_spec (s : Store) (p c : Nat) (index : Option Int) :
    ((addChild s p c index) c).parent = some p ∧
    (∀ i : Int, index = some i → 0 ≤ i → i ≤ ((s p).children.length : Int) →
      ((addChild s p c index) p).children = (s p).children.insertIdx i.toNat c) ∧
    (∀ i : Int, index = some i → (i < 0 ∨ ((s p).children.length : Int) < i) →
      ((addChild s p c index) p).children = (s p).children ++ [c]) ∧
    (index = none → ((addChild s p c index) p).children = (s p).children ++ [c]) := by
  refine ⟨addChild_parent_self s p c index, ?_, ?_, ?_⟩
  · intro i hidx h0 hlen
    rw [hidx, addChild_children_self]
    simp [jsInsert, h0, hlen]
  · intro i hidx hcase
    rw [hidx, addChild_children_self]
    have hno : ¬ (0 ≤ i ∧ i ≤ ((s p).children.length : Int)) := by
      rcases hcase with h1 | h1 <;> omega
    simp [jsInsert, hno]
  · intro h
    rw [h, addChild_children_self]
    simp [jsInsert]

/-- Witness for C4: attaching node `3` to `0` at index `1` places it between
the existing children. -/
theorem c4_addChild_spec_witness :
    ((addChild exStore4 0 3 (some 1)) 3).parent = some 0 ∧
    ((addChild exStore4 0 3 (some 1)) 0).children = [1, 3, 2] := by
  have h := c4_addChild_spec exStore4 0 3 (some 1)
  refine ⟨h.1, ?_⟩
  have h2 := h.2.1 1 rfl (by decide) (by decide)
  rw [h2]
  decide

/-! ### Node data model: constructor, `toJSON`/`fromJSON`, `clone`, tags

The `MindNode` constructor, serialization and cloning are recursive over the
plain `NodeData` record tree, so they are modelled on an inductive tree
(mutually with an inductive forest, to keep recursion structural).  The
`parent` back-reference is represented by the tree structure itself. -/

/-- A value stored under one style key (colors/strings, numbers, padding
quadruples). -/
inductive StyleVal where
  | str (s : String)
  | num (q : ℚ)
  | quad (a b c d : ℚ)
deriving DecidableEq

/-- A style record: each key absent or present with a value. -/
def NodeStyle := String → Option StyleVal

/-- `DEFAULT_NODE_STYLE` from the constants module. -/
def DEFAULT_NODE_STYLE : NodeStyle := fun k =>
  if k = "backgroundColor" then some (.str "#ffffff")
  else if k = "borderColor" then some (.str "#3b82f6")
  else if k = "textColor" then some (.str "#1f2937")
  else if k = "borderWidth" then some (.num 2)
  else if k = "borderStyle" then some (.str "solid")
  else if k = "borderRadius" then some (.num 4)
  else if k = "shape" then some (.str "rounded")
  else if k = "width" then some (.str "auto")
  else if k = "height" then some (.str "auto")
  else if k = "padding" then some (.quad 12 20 12 20)
  else if k = "fontSize" then some (.num 14)
  else if k = "fontFamily" then some (.str "-apple-system, BlinkMacSystemFont, Segoe UI, Roboto, sans-serif")
  else if k = "fontWeight" then some (.str "400")
  else if k = "fontStyle" then some (.str "normal")
  else if k = "textAlign" then some (.str "center")
  else if k = "textDecoration" then some (.str "none")
  else if k = "opacity" then some (.num 1)
  else none

/-- `Object.assign(base, s)`: keys present in `s` override `base`. -/
def assignStyle (base s : NodeStyle) : NodeStyle := fun k =>
  match s k with
  | some v => some v
  | none => base k

/-- `mergeStyle(...styles)` from helpers.ts: start from a copy of
`DEFAULT_NODE_STYLE`, then assign each provided (non-`undefined`) style in
order. -/
def mergeStyle (styles : List (Option NodeStyle)) : NodeStyle :=
  styles.foldl
    (fun acc st =>
      match st with
      | some stl => assignStyle acc stl
      | none => acc)
    DEFAULT_NODE_STYLE

/-- One run of the `RichTextContent` interface (the remaining optional
formatting fields follow the same pattern). -/
structure RichRun where
  text : String
  bold : Option Bool := none
  italic : Option Bool := none
  underline : Option Bool := none
  color : Option String := none
deriving DecidableEq

/-- `text: string | RichTextContent[]`. -/
inductive NodeText where
  | plain (s : String)
  | rich (runs : List RichRun)
deriving DecidableEq

/-- The opaque `data` key/value bag. -/
abbrev DataBag := List (String × String)

mutual
inductive MindTree where
  | node (idv : String) (text : NodeText) (style : NodeStyle) (dta : DataBag)
      (expanded selected hidden : Bool) (tags : List String) (typev : Option String)
      (x y width height : ℚ) (children : MindForest)
inductive MindForest where
  | nil
  | cons (t : MindTree) (ts : MindForest)
end

mutual
inductive NodeData where
  | mk (idv : Option String) (text : Option NodeText) (style : Option NodeStyle)
      (dta : Option DataBag) (expanded selected hidden : Option Bool)
      (tags : Option (List String)) (typev : Option String)
      (x y width height : Option ℚ) (children : Option NodeDataForest)
inductive NodeDataForest where
  | dnil
  | dcons (d : NodeData) (ds : NodeDataForest)
end

def MindTree.idOf : MindTree → String
  | .node i _ _ _ _ _ _ _ _ _ _ _ _ _ => i

def MindTree.textOf : MindTree → NodeText
  | .node _ t _ _ _ _ _ _ _ _ _ _ _ _ => t

def MindTree.styleOf : MindTree → NodeStyle
  | .node _ _ s _ _ _ _ _ _ _ _ _ _ _ => s

def MindTree.dataOf : MindTree → DataBag
  | .node _ _ _ d _ _ _ _ _ _ _ _ _ _ => d

def MindTree.expandedOf : MindTree → Bool
  | .node _ _ _ _ e _ _ _ _ _ _ _ _ _ => e

def MindTree.selectedOf : MindTree → Bool
  | .node _ _ _ _ _ s _ _ _ _ _ _ _ _ => s

def MindTree.hiddenOf : MindTree → Bool
  | .node _ _ _ _ _ _ h _ _ _ _ _ _ _ => h

def MindTree.tagsOf : MindTree → List String
  | .node _ _ _ _ _ _ _ tg _ _ _ _ _ _ => tg

def MindTree.typeOf : MindTree → Option String
  | .node _ _ _ _ _ _ _ _ ty _ _ _ _ _ => ty

def MindTree.childrenOf : MindTree → MindForest
  | .node _ _ _ _ _ _ _ _ _ _ _ _ _ ch => ch

def MindForest.toList : MindForest → List MindTree
  | .nil => []
  | .cons t ts => t :: ts.toList

def NodeData.typeOf : NodeData → Option String
  | .mk _ _ _ _ _ _ _ _ ty _ _ _ _ _ => ty

/-- `clonedData.id = generateId('node')`: overwrite the id field. -/
def NodeData.setId : NodeData → Option String → NodeData
  | .mk _ t s d e sel h tg ty x y w hh ch, i => .mk i t s d e sel h tg ty x y w hh ch

/-- `delete clonedData.children`. -/
def NodeData.dropChildren : NodeData → NodeData
  | .mk i t s d e sel h tg ty x y w hh _ => .mk i t s d e sel h tg ty x y w hh none

/-- `data.text || '新节点'`: the empty plain string is falsy, a runs array
(even an empty one) is truthy. -/
def textOrDefault (t : Option NodeText) : NodeText :=
  match t with
  | some (.plain s) => if s = "" then .plain "新节点" else .plain s
  | some (.rich runs) => .rich runs
  | none => .plain "新节点"

/-- `data.id || generateId('node')`: an absent or empty id draws the next
generated one (advancing the call count). -/
def idOrGen (gen : Nat → String) (c : Nat) (idv : Option String) : String × Nat :=
  match idv with
  | some s => if s = "" then (gen c, c + 1) else (s, c)
  | none => (gen c, c + 1)

mutual
/-- The `MindNode` constructor over a `NodeData` record.  `gen` is the
supply of generated identifiers (`generateId('node')`), indexed by call
count `c`; the updated count is returned. -/
def construct (gen : Nat → String) (c : Nat) : NodeData → MindTree × Nat
  | .mk idv text style dta expanded selected hidden tags typev x y w h children =>
    let idc : String × Nat := idOrGen gen c idv
    let kids : MindForest × Nat :=
      match children with
      | some ds => constructForest gen idc.2 ds
      | none => (MindForest.nil, idc.2)
    (MindTree.node idc.1 (textOrDefault text)
      (mergeStyle [some DEFAULT_NODE_STYLE, style])
      (dta.getD [])
      (if expanded = some false then false else true)
      (if selected = some true then true else false)
      (if hidden = some true then true else false)
      (tags.getD []) typev
      (jsOr x 0) (jsOr y 0) (jsOr w 0) (jsOr h 0)
      kids.1, kids.2)
/-- `data.children.map(childData => new MindNode(childData))` with the
parent back-reference given by the tree structure. -/
def constructForest (gen : Nat → String) (c : Nat) : NodeDataForest → MindForest × Nat
  | .dnil => (MindForest.nil, c)
  | .dcons d ds =>
    let tc := construct gen c d
    let rest := constructForest gen tc.2 ds
    (MindForest.cons tc.1 rest.1, rest.2)
end

/-- The `if (this.type)` truthiness filter used by `toJSON`: an empty-string
type is omitted. -/
def typeFilter (o : Option String) : Option String :=
  match o with
  | some s => if s = "" then none else some s
  | none => none

mutual
/-- `toJSON()`: always includes id, text, style, the three flags, tags and
data; includes `type` only when truthy; includes `children` only when
non-empty; never includes the geometry. -/
def toJSON : MindTree → NodeData
  | .node i text style dta expanded selected hidden tags typev _ _ _ _ children =>
    NodeData.mk (some i) (some text) (some style) (some dta) (some expanded)
      (some selected) (some hidden) (some tags) (typeFilter typev)
      none none none none
      (match children with
       | .nil => none
       | ts => some (toJSONForest ts))
def toJSONForest : MindForest → NodeDataForest
  | .nil => .dnil
  | .cons t ts => .dcons (toJSON t) (toJSONForest ts)
end

/-- `MindNode.fromJSON(data)` is `new MindNode(data)`. -/
def fromJSON (gen : Nat → String) (c : Nat) (d : NodeData) : MindTree × Nat :=
  construct gen c d

/-- `clone(includeChildren = true)`: serialize, optionally drop the children
key, overwrite the id with a freshly generated one, and rebuild through the
constructor. -/
def clone (gen : Nat → String) (c : Nat) (t : MindTree) (includeChildren : Bool) :
    MindTree × Nat :=
  let d := toJSON t
  let d1 := if includeChildren then d else d.dropChildren
  let d2 := d1.setId (some (gen c))
  construct gen (c + 1) d2

/-- `addTag(tag)`: append only when not already present. -/
def addTag (tags : List String) (tag : String) : List String :=
  if tag ∈ tags then tags else tags ++ [tag]

/-- `removeTag(tag)`: splice out the first occurrence, if any. -/
def removeTag (tags : List String) (tag : String) : List String :=
  tags.erase tag

/-- One tag mutation. -/
inductive TagOp where
  | add (t : String)
  | rem (t : String)

def applyTagOp (tags : List String) : TagOp → List String
  | .add t => addTag tags t
  | .rem t => removeTag tags t

def applyTagOps (tags : List String) (ops : List TagOp) : List String :=
  ops.foldl applyTagOp tags

mutual
/-- All node ids of a subtree, root first. -/
def treeIds : MindTree → List String
  | .node i _ _ _ _ _ _ _ _ _ _ _ _ children => i :: forestIds children
def forestIds : MindForest → List String
  | .nil => []
  | .cons t ts => treeIds t ++ forestIds ts
end

mutual
/-- The shape every constructor-produced node has: nonempty id, text that is
not the empty plain string, a fully resolved style (a fixpoint of merging
over the defaults), and constructor-produced children. -/
def Constructed : MindTree → Prop
  | .node i text style _ _ _ _ _ _ _ _ _ _ children =>
    i ≠ "" ∧ text ≠ .plain "" ∧ assignStyle DEFAULT_NODE_STYLE style = style ∧
    ConstructedForest children
def ConstructedForest : MindForest → Prop
  | .nil => True
  | .cons t ts => Constructed t ∧ ConstructedForest ts
end

mutual
/-- Field-wise agreement after a round trip: id, text, style, data, the
three flags and tags agree, the type of the rebuilt node is the truthiness
filter of the original's, and the children agree recursively in order.
Geometry is not compared (`toJSON` does not serialize it). -/
def SameCore : MindTree → MindTree → Prop
  | .node i1 t1 s1 d1 e1 sel1 h1 tg1 ty1 _ _ _ _ k1,
    .node i2 t2 s2 d2 e2 sel2 h2 tg2 ty2 _ _ _ _ k2 =>
    i2 = i1 ∧ t2 = t1 ∧ s2 = s1 ∧ d2 = d1 ∧ e2 = e1 ∧ sel2 = sel1 ∧ h2 = h1 ∧
    tg2 = tg1 ∧ ty2 = typeFilter ty1 ∧ SameForest k1 k2
def SameForest : MindForest → MindForest → Prop
  | .nil, .nil => True
  | .cons a as, .cons b bs => SameCore a b ∧ SameForest as bs
  | .nil, .cons _ _ => False
  | .cons _ _, .nil => False
end

theorem assignStyle_self (a : NodeStyle) : assignStyle a a = a := by
  funext k
  simp only [assignStyle]
  cases ha : a k <;> simp

theorem assignStyle_idem (a b : NodeStyle) :
    assignStyle a (assignStyle a b) = assignStyle a b := by
  funext k
  simp only [assignStyle]
  cases hb : b k with
  | some v => simp
  | none => cases ha : a k <;> simp

theorem mergeStyle_pair (s : NodeStyle) :
    mergeStyle [some DEFAULT_NODE_STYLE, some s] = assignStyle DEFAULT_NODE_STYLE s := by
  show assignStyle (assignStyle DEFAULT_NODE_STYLE DEFAULT_NODE_STYLE) s = _
  rw [assignStyle_self]

theorem mergeStyle_isFix (style : Option NodeStyle) :
    assignStyle DEFAULT_NODE_STYLE (mergeStyle [some DEFAULT_NODE_STYLE, style])
      = mergeStyle [some DEFAULT_NODE_STYLE, style] := by
  cases style with
  | none =>
    show assignStyle DEFAULT_NODE_STYLE (assignStyle DEFAULT_NODE_STYLE DEFAULT_NODE_STYLE)
        = assignStyle DEFAULT_NODE_STYLE DEFAULT_NODE_STYLE
    rw [assignStyle_idem]
  | some s =>
    rw [mergeStyle_pair, assignStyle_idem]

theorem mergeStyle_resolved (s : NodeStyle)
    (hfix : assignStyle DEFAULT_NODE_STYLE s = s) :
    mergeStyle [some DEFAULT_NODE_STYLE, some s] = s := by
  rw [mergeStyle_pair, hfix]

theorem idOrGen_ne (gen : Nat → String) (hgen : ∀ k, gen k ≠ "") (c : Nat)
    (idv : Option String) : (idOrGen gen c idv).1 ≠ "" := by
  cases idv with
  | none => exact hgen c
  | some s =>
    by_cases hs : s = ""
    · simp only [idOrGen, if_pos hs]; exact hgen c
    · simp only [idOrGen, if_neg hs]; exact hs

theorem idOrGen_of_ne (gen : Nat → String) (c : Nat) (s : String) (hs : s ≠ "") :
    idOrGen gen c (some s) = (s, c) := by
  simp only [idOrGen, if_neg hs]

theorem textOrDefault_ne (t : Option NodeText) : textOrDefault t ≠ .plain "" := by
  cases t with
  | none => simp [textOrDefault]
  | some tx =>
    cases tx with
    | plain s => by_cases hs : s = "" <;> simp [textOrDefault, hs]
    | rich runs => simp [textOrDefault]

theorem textOrDefault_of_ne (t : NodeText) (h : t ≠ .plain "") :
    textOrDefault (some t) = t := by
  cases t with
  | plain s =>
    have hs : s ≠ "" := fun hs0 => h (by rw [hs0])
    simp [textOrDefault, hs]
  | rich runs => simp [textOrDefault]

theorem jsNotFalse (b : Bool) :
    (if (some b : Option Bool) = some false then false else true) = b := by
  cases b <;> simp

theorem jsIsTrue (b : Bool) :
    (if (some b : Option Bool) = some true then true else false) = b := by
  cases b <;> simp

mutual
/-- Every tree built by the constructor is `Constructed`, for any id supply
producing nonempty ids. -/
theorem construct_wf (gen : Nat → String) (hgen : ∀ k, gen k ≠ "") :
    ∀ (d : NodeData) (c : Nat), Constructed (construct gen c d).1
  | .mk idv text style dta e sel h tags ty x y w hh children, c => by
    cases children with
    | none =>
      exact ⟨idOrGen_ne gen hgen c idv, textOrDefault_ne text,
        mergeStyle_isFix style, trivial⟩
    | some ds =>
      exact ⟨idOrGen_ne gen hgen c idv, textOrDefault_ne text,
        mergeStyle_isFix style, constructForest_wf gen hgen ds _⟩
/-- Forest version of `construct_wf`. -/
theorem constructForest_wf (gen : Nat → String) (hgen : ∀ k, gen k ≠ "") :
    ∀ (ds : NodeDataForest) (c : Nat), ConstructedForest (constructForest gen c ds).1
  | .dnil, _ => trivial
  | .dcons d ds, c =>
    ⟨construct_wf gen hgen d c, constructForest_wf gen hgen ds _⟩
end

mutual
/-- Round trip on `Constructed` trees: rebuilding `toJSON t` through the
constructor agrees with `t` on every serialized field (`SameCore`). -/
theorem rt_tree : ∀ (t : MindTree), Constructed t →
    ∀ (g : Nat → String) (c : Nat), SameCore t ((construct g c (toJSON t)).1)
  | .node i text style dta e sel h tags ty x y w hh children, hc, g, c => by
    obtain ⟨hid, htext, hstyle, hch⟩ := hc
    cases children with
    | nil =>
      refine ⟨?_, ?_, ?_, rfl, ?_, ?_, ?_, rfl, rfl, trivial⟩
      · rw [idOrGen_of_ne g c i hid]
      · exact textOrDefault_of_ne text htext
      · exact mergeStyle_resolved style hstyle
      · exact jsNotFalse e
      · exact jsIsTrue sel
      · exact jsIsTrue h
    | cons t ts =>
      refine ⟨?_, ?_, ?_, rfl, ?_, ?_, ?_, rfl, rfl, ?_⟩
      · rw [idOrGen_of_ne g c i hid]
      · exact textOrDefault_of_ne text htext
      · exact mergeStyle_resolved style hstyle
      · exact jsNotFalse e
      · exact jsIsTrue sel
      · exact jsIsTrue h
      · exact rt_forest (.cons t ts) hch g _
/-- Forest version of `rt_tree`. -/
theorem rt_forest : ∀ (ts : MindForest), ConstructedForest ts →
    ∀ (g : Nat → String) (c : Nat),
      SameForest ts ((constructForest g c (toJSONForest ts)).1)
  | .nil, _, _, _ => trivial
  | .cons t ts, hc, g, c =>
    ⟨rt_tree t hc.1 g c, rt_forest ts hc.2 g _⟩
end

/-- An id supply shaped like `generateId('node')` output. -/
def gen0 : Nat → String := fun k => "node_" ++ toString k

theorem gen0_ne (k : Nat) : gen0 k ≠ "" := by
  intro h
  have hlen := congrArg String.length h
  simp only [gen0] at hlen
  rw [String.length_append] at hlen
  have h5 : "node_".length = 5 := rfl
  have h0 : String.length "" = 0 := rfl
  rw [h5, h0] at hlen
  omega

/-! ### Claim theorems for serialization and cloning (C2, C5) -/

/-- C2 (counterexample): a node constructed from a record with `type: ""`
carries the empty-string type, but `toJSON` omits a falsy type, so
`fromJSON(toJSON(n))` rebuilds it with no type at all. -/
theorem c2_roundtrip_counterexample :
    ((construct gen0 0 (.mk none none none none none none none none (some "")
        none none none none none)).1).typeOf = some "" ∧
    ((fromJSON gen0 0 (toJSON ((construct gen0 0 (.mk none none none none none
        none none none (some "") none none none none none)).1))).1).typeOf = none ∧
    (some "" : Option String) ≠ none :=
  ⟨rfl, rfl, by decide⟩

/-- C2 (amended): for every node built by the constructor (from any data
record, under any id supply producing nonempty ids),
`fromJSON(node.toJSON())` rebuilds a tree that agrees on ids, text, style,
data, the expanded/selected/hidden flags and tags, with children structure
and sibling order preserved; the `type` field agrees whenever it is not the
empty string, and an empty-string type comes back unset. -/
theorem c2_roundtrip (gen gen2 : Nat → String) (c c2 : Nat) (d : NodeData)
    (hgen : ∀ k, gen k ≠ "") :
    SameCore ((construct gen c d).1)
      ((fromJSON gen2 c2 (toJSON ((construct gen c d).1))).1) :=
  rt_tree _ (construct_wf gen hgen d c) gen2 c2

/-- Witness for C2: a two-level concrete tree with text, flags, tags and a
type round trips. -/
theorem c2_roundtrip_witness :
    SameCore ((construct gen0 0 (.mk (some "r") (some (.plain "hello")) none none
        (some false) none none (some ["a", "b"]) (some "topic") none none none none
        (some (.dcons (.mk (some "k") none none none none none none none none
          none none none none none) .dnil)))).1)
      ((fromJSON gen0 7 (toJSON ((construct gen0 0 (.mk (some "r")
        (some (.plain "hello")) none none (some false) none none
        (some ["a", "b"]) (some "topic") none none none none
        (some (.dcons (.mk (some "k") none none none none none none none none
          none none none none none) .dnil)))).1))).1) :=
  c2_roundtrip gen0 gen0 0 7 _ gen0_ne

/-- The source data for the C5 counterexample: a root `"r"` with one child
`"c"`. -/
def dEx5 : NodeData :=
  .mk (some "r") none none none none none none none none none none none none
    (some (.dcons (.mk (some "c") none none none none none none none none none
      none none none none) .dnil))

/-- The C5 example tree. -/
def tEx5 : MindTree := (construct gen0 0 dEx5).1

/-- C5 (counterexample): `clone(true)` regenerates only the top-level id
(`clonedData.id = generateId('node')`); the cloned child keeps the id `"c"`,
which is an id inside the source subtree — contradicting "every descendant
has an id different from every id in n's subtree". -/
theorem c5_clone_counterexample :
    ((clone gen0 1 tEx5 true).1).childrenOf.toList.map MindTree.idOf = ["c"] ∧
    "c" ∈ treeIds tEx5 :=
  ⟨rfl, by decide⟩

/-- C5 (amended): `clone(true)` under a fresh generated id produces a node
whose own id is the freshly generated one (in particular different from
`n.id`), whose text, style, data, flags and tags equal `n`'s (type equal
whenever truthy), and whose children agree with `n`'s recursively — ids
included: descendants keep their original ids rather than receiving fresh
ones.  Sharing of mutable structure cannot arise in this value model
(`toJSON` deep-clones every field). -/
theorem c5_clone_spec (gen : Nat → String) (c : Nat) (t : MindTree)
    (hc : Constructed t) (hgen : ∀ k, gen k ≠ "") (hfresh : gen c ≠ t.idOf) :
    ((clone gen c t true).1).idOf = gen c ∧
    ((clone gen c t true).1).idOf ≠ t.idOf ∧
    ((clone gen c t true).1).textOf = t.textOf ∧
    ((clone gen c t true).1).styleOf = t.styleOf ∧
    ((clone gen c t true).1).dataOf = t.dataOf ∧
    ((clone gen c t true).1).expandedOf = t.expandedOf ∧
    ((clone gen c t true).1).selectedOf = t.selectedOf ∧
    ((clone gen c t true).1).hiddenOf = t.hiddenOf ∧
    ((clone gen c t true).1).tagsOf = t.tagsOf ∧
    ((clone gen c t true).1).typeOf = typeFilter t.typeOf ∧
    SameForest t.childrenOf ((clone gen c t true).1).childrenOf := by
  obtain ⟨i, text, style, dta, e, sel, h, tags, ty, x, y, w, hh, children⟩ := t
  obtain ⟨hid, htext, hstyle, hch⟩ := hc
  have hgc : idOrGen gen (c + 1) (some (gen c)) = (gen c, c + 1) :=
    idOrGen_of_ne gen (c + 1) (gen c) (hgen c)
  cases children with
  | nil =>
    refine ⟨?_, ?_, ?_, ?_, rfl, ?_, ?_, ?_, rfl, rfl, trivial⟩
    · show (idOrGen gen (c + 1) (some (gen c))).1 = gen c
      rw [hgc]
    · show (idOrGen gen (c + 1) (some (gen c))).1 ≠ _
      rw [hgc]; exact hfresh
    · exact textOrDefault_of_ne text htext
    · exact mergeStyle_resolved style hstyle
    · exact jsNotFalse e
    · exact jsIsTrue sel
    · exact jsIsTrue h
  | cons t1 ts =>
    refine ⟨?_, ?_, ?_, ?_, rfl, ?_, ?_, ?_, rfl, rfl, ?_⟩
    · show (idOrGen gen (c + 1) (some (gen c))).1 = gen c
      rw [hgc]
    · show (idOrGen gen (c + 1) (some (gen c))).1 ≠ _
      rw [hgc]; exact hfresh
    · exact textOrDefault_of_ne text htext
    · exact mergeStyle_resolved style hstyle
    · exact jsNotFalse e
    · exact jsIsTrue sel
    · exact jsIsTrue h
    · exact rt_forest (.cons t1 ts) hch gen _

/-- Witness for C5: cloning the concrete two-node tree with the next
generated id yields the fresh root id and preserves the child. -/
theorem c5_clone_spec_witness :
    ((clone gen0 1 tEx5 true).1).idOf = gen0 1 ∧
    ((clone gen0 1 tEx5 true).1).idOf ≠ tEx5.idOf ∧
    SameForest tEx5.childrenOf ((clone gen0 1 tEx5 true).1).childrenOf := by
  have h := c5_clone_spec gen0 1 tEx5
    (construct_wf gen0 gen0_ne dEx5 0) gen0_ne (by decide)
  exact ⟨h.1, h.2.1, h.2.2.2.2.2.2.2.2.2.2⟩

/-! ### Claim theorems for tags (C9) -/

theorem nodup_addTag {tags : List String} (h : tags.Nodup) (t : String) :
    (addTag tags t).Nodup := by
  by_cases hm : t ∈ tags
  · simpa [addTag, hm] using h
  · simp only [addTag, if_neg hm]
    rw [← List.concat_eq_append]
    exact List.Nodup.concat hm h

theorem nodup_removeTag {tags : List String} (h : tags.Nodup) (t : String) :
    (removeTag tags t).Nodup :=
  List.Nodup.sublist (List.erase_sublist t tags) h

theorem applyTagOps_nodup :
    ∀ (ops : List TagOp) (tags : List String), tags.Nodup → (applyTagOps tags ops).Nodup
  | [], _, h => h
  | op :: rest, tags, h => by
    have hstep : (applyTagOp tags op).Nodup := by
      cases op with
      | add t => exact nodup_addTag h t
      | rem t => exact nodup_removeTag h t
    exact applyTagOps_nodup rest (applyTagOp tags op) hstep

/-- C9 (counterexample): the constructor stores `data.tags` as given — no
deduplication — so a node constructed from a record with duplicate tags
violates I6 immediately. -/
theorem c9_tags_nodup_counterexample :
    ((construct gen0 0 (.mk none none none none none none none
        (some ["a", "a"]) none none none none none none)).1).tagsOf = ["a", "a"] ∧
    ¬ ((construct gen0 0 (.mk none none none none none none none
        (some ["a", "a"]) none none none none none none)).1).tagsOf.Nodup :=
  ⟨rfl, by decide⟩

/-- C9 (amended): for every node whose current tags list is duplicate-free
(in particular one constructed without a tags field, or with duplicate-free
tags), every sequence of `addTag`/`removeTag` calls preserves I6, and
`addTag` of an already-present tag leaves the tags unchanged.  The
constructor itself does not deduplicate an arbitrary tags input. -/
theorem c9_tags_nodup (gen : Nat → String) (c : Nat) (d : NodeData)
    (h : ((construct gen c d).1).tagsOf.Nodup) :
    (∀ ops : List TagOp, (applyTagOps ((construct gen c d).1).tagsOf ops).Nodup) ∧
    (∀ t, t ∈ ((construct gen c d).1).tagsOf →
      addTag ((construct gen c d).1).tagsOf t = ((construct gen c d).1).tagsOf) := by
  constructor
  · intro ops
    exact applyTagOps_nodup ops _ h
  · intro t ht
    simp [addTag, ht]

/-- Witness for C9: a node constructed with tags `["x"]` keeps I6 under an
add/add/remove sequence, and re-adding `"x"` is a no-op. -/
theorem c9_tags_nodup_witness :
    (applyTagOps ((construct gen0 0 (.mk none none none none none none none
        (some ["x"]) none none none none none none)).1).tagsOf
      [.add "x", .add "y", .rem "x"]).Nodup ∧
    addTag ((construct gen0 0 (.mk none none none none none none none
        (some ["x"]) none none none none none none)).1).tagsOf "x"
      = ((construct gen0 0 (.mk none none none none none none none
        (some ["x"]) none none none none none none)).1).tagsOf := by
  have h := c9_tags_nodup gen0 0 (.mk none none none none none none none
    (some ["x"]) none none none none none none) (by decide)
  exact ⟨h.1 [.add "x", .add "y", .rem "x"], h.2 "x" (by decide)⟩

end Mindmap
